import Mathlib

/-!
Verification of the salary-deflation pipeline of `app.py`
(sueldos-argentina-dashboard).

Shallow embedding conventions:
* pandas float cells are modelled by `PVal`: exact rationals plus the IEEE
  special values `nan` (which pandas treats as "missing"), `inf` and `ninf`.
  Rounding of binary floats is abstracted away; the sign behaviour of
  division by zero and of multiplication with infinities follows IEEE 754,
  which is what numpy uses elementwise on Series.
* dates are modelled by `Date` (year/month/day); `pd.to_datetime(...,
  errors="coerce")` is modelled by inputs already being `Option Date`
  (`none` = NaT, the unparseable case).  After normalisation the pipeline
  only ever uses month granularity, so merged frames key rows by the
  integer month index `monthIdx`.
* a DataFrame is a `Frame`: a list of rows plus one Boolean per optional
  column recording whether that column is present (an absent column has
  all cells `nan` and its flag `false`).
-/

/-- A pandas float cell: `nan` doubles as the missing marker (as in pandas,
where `isna` is true exactly for NaN/NaT), and infinities are NOT missing. -/
inductive PVal where
  | nan : PVal
  | inf : PVal
  | ninf : PVal
  | num : ℚ → PVal
deriving DecidableEq

/-- `Series.notna`: everything except NaN counts as present (infinities do). -/
def PVal.notna : PVal → Bool
  | .nan => false
  | _ => true

/-- IEEE-style multiplication on cells (numpy elementwise `*`). -/
def PVal.mul : PVal → PVal → PVal
  | .nan, _ => .nan
  | .inf, .nan => .nan
  | .ninf, .nan => .nan
  | .num _, .nan => .nan
  | .num a, .num b => .num (a * b)
  | .num a, .inf => if 0 < a then .inf else if a < 0 then .ninf else .nan
  | .num a, .ninf => if 0 < a then .ninf else if a < 0 then .inf else .nan
  | .inf, .num b => if 0 < b then .inf else if b < 0 then .ninf else .nan
  | .ninf, .num b => if 0 < b then .ninf else if b < 0 then .inf else .nan
  | .inf, .inf => .inf
  | .inf, .ninf => .ninf
  | .ninf, .inf => .ninf
  | .ninf, .ninf => .inf

/-- IEEE-style division on cells (numpy elementwise `/`): a nonzero number
divided by zero is a signed infinity, `0/0` is NaN — never an exception. -/
def PVal.div : PVal → PVal → PVal
  | .nan, _ => .nan
  | .inf, .nan => .nan
  | .ninf, .nan => .nan
  | .num _, .nan => .nan
  | .num a, .num b =>
      if b = 0 then (if a = 0 then .nan else if 0 < a then .inf else .ninf)
      else .num (a / b)
  | .num _, .inf => .num 0
  | .num _, .ninf => .num 0
  | .inf, .num b => if 0 ≤ b then .inf else .ninf
  | .ninf, .num b => if 0 ≤ b then .ninf else .inf
  | .inf, .inf => .nan
  | .inf, .ninf => .nan
  | .ninf, .inf => .nan
  | .ninf, .ninf => .nan

/-- A calendar date as carried by a parsed timestamp. -/
structure Date where
  year : Int
  month : Int
  day : Int
deriving DecidableEq

/-- Truncation of one parsed date to the first day of its month
(`s.dt.to_period("M").dt.to_timestamp()`). -/
def toMonthStartD (d : Date) : Date := { d with day := 1 }

/-- `to_month_start` (app.py line 13): coercion failures are `none` (NaT)
and propagate; parsed dates are truncated to the first of the month. -/
def to_month_start (s : Option Date) : Option Date := s.map toMonthStartD

/-- The month key used for sorting/joining after normalisation: a linear
index of the calendar month.  For parsed dates (month between 1 and 12)
this is injective on (year, month) and ignores the day, exactly like the
first-of-month timestamp. -/
def monthIdx (d : Date) : Int := d.year * 12 + d.month

/-- A raw input row (before `merge_all`): `fecha` is a parsed-or-NaT date,
the numeric columns are float cells. -/
structure RawRow where
  fecha : Option Date
  sueldo : PVal
  usd_ars : PVal
  cpi_ar : PVal
  cpi_us : PVal
deriving DecidableEq

/-- The uploaded table: rows plus column-presence flags (`"c" in df.columns`).
An absent column is represented by flag `false`; its cells are ignored. -/
structure RawFrame where
  hasFecha : Bool
  hasSueldo : Bool
  hasUsd : Bool
  hasCpiAr : Bool
  hasCpiUs : Bool
  rows : List RawRow
deriving DecidableEq

/-- A merged/normalised row: `fecha` is the month index (or `none` = NaT). -/
structure Row where
  fecha : Option Int
  sueldo : PVal
  usd_ars : PVal
  cpi_ar : PVal
  cpi_us : PVal
deriving DecidableEq

/-- A merged table with its column-presence flags. -/
structure Frame where
  hasUsd : Bool
  hasCpiAr : Bool
  hasCpiUs : Bool
  rows : List Row
deriving DecidableEq

/-- `sort_values("fecha")` key order: NaT sorts last (`na_position="last"`). -/
def fecLe : Option Int → Option Int → Bool
  | _, none => true
  | none, some _ => false
  | some a, some b => a ≤ b

/-- Row order used by `sort_values("fecha")`. -/
def rowLe (a b : Row) : Prop := fecLe a.fecha b.fecha = true

instance : DecidableRel rowLe := fun a b => by unfold rowLe; infer_instance

instance : IsTotal Row rowLe := by
  constructor
  intro a b
  unfold rowLe fecLe
  cases a.fecha with
  | none => cases b.fecha with
    | none => left; rfl
    | some y => right; rfl
  | some x => cases b.fecha with
    | none => left; rfl
    | some y =>
      rcases le_total x y with h | h
      · left; simpa using h
      · right; simpa using h

instance : IsTrans Row rowLe := by
  constructor
  intro a b c hab hbc
  unfold rowLe fecLe at *
  cases hc : c.fecha with
  | none => cases a.fecha <;> rfl
  | some z =>
    cases hb : b.fecha with
    | none => rw [hb, hc] at hbc; exact absurd hbc (by simp)
    | some y =>
      cases ha : a.fecha with
      | none => rw [ha, hb] at hab; exact absurd hab (by simp)
      | some x =>
        rw [ha, hb] at hab; rw [hb, hc] at hbc
        simp only [decide_eq_true_eq] at hab hbc ⊢
        exact le_trans hab hbc

/-- Reference CPI table from FRED after `dropna()`: (month index, level)
pairs, no missing cells by construction (app.py lines 17-26). -/
def lookupRef (ref : List (Int × ℚ)) (m : Int) : PVal :=
  match ref.find? (fun p => p.1 == m) with
  | some p => .num p.2
  | none => .nan

/-- The SchemaError message of app.py line 41. -/
def schemaErrMsg : String :=
  "El archivo/hoja debe tener al menos las columnas: fecha, sueldo_nominal_ars"

/-- Column retention + normalisation of one raw row (app.py lines 43-44):
`fecha` is month-start-normalised then keyed by month; an optional column
that is absent contributes NaN cells. -/
def normRow (raw : RawFrame) (r : RawRow) : Row :=
  { fecha := (r.fecha.map toMonthStartD).map monthIdx
    sueldo := r.sueldo
    usd_ars := if raw.hasUsd then r.usd_ars else .nan
    cpi_ar := if raw.hasCpiAr then r.cpi_ar else .nan
    cpi_us := if raw.hasCpiUs then r.cpi_us else .nan }

/-- `merge_all` (app.py lines 38-48): schema check, month normalisation,
column retention, sort by month (NaT last), and a left join of the
reference index on `fecha` only when `cpi_us` is absent.  The left join is
modelled as a first-match lookup (the reference index has unique months);
left-join row order is preserved, and a NaT key never matches (the
reference has no missing keys after `dropna`). -/
def mergedRows (raw : RawFrame) (ref : List (Int × ℚ)) : List Row :=
  let sorted := List.insertionSort rowLe (raw.rows.map (normRow raw))
  if raw.hasCpiUs then sorted
  else sorted.map (fun r =>
    { r with cpi_us := match r.fecha with
                       | some m => lookupRef ref m
                       | none => .nan })

/-- The full `merge_all`, including the schema check of app.py lines 40-42
(`st.error` + `st.stop` halt the run: modelled as the error branch).  After
the merge the `cpi_us` column always exists (kept or joined), so the
output flag for it is `true`. -/
def merge_all (raw : RawFrame) (ref : List (Int × ℚ)) : Except String Frame :=
  if !raw.hasFecha || !raw.hasSueldo then
    .error schemaErrMsg
  else
    .ok { hasUsd := raw.hasUsd, hasCpiAr := raw.hasCpiAr, hasCpiUs := true,
          rows := mergedRows raw ref }

/-- The spec's SeriesTable uniqueness invariant: month values pairwise
distinct. -/
def monthsUnique (f : Frame) : Prop := (f.rows.map (·.fecha)).Nodup

instance (f : Frame) : Decidable (monthsUnique f) := by
  unfold monthsUnique; infer_instance

/-- The spec's SeriesTable ordering invariant: rows ascending by month,
missing months last. -/
def frameSorted (f : Frame) : Prop := List.Sorted rowLe f.rows

/-- `Series.max()` with `skipna=True`: maximum of the present values,
`none` when every value is missing or the list is empty. -/
def listMax? : List Int → Option Int
  | [] => none
  | x :: xs => some (xs.foldl max x)

/-- `Series.min()` with `skipna=True`. -/
def listMin? : List Int → Option Int
  | [] => none
  | x :: xs => some (xs.foldl min x)

/-- `df["c"].notna().any()` for a cell projection. -/
def anyNotna (f : Frame) (get : Row → PVal) : Bool :=
  f.rows.any (fun r => (get r).notna)

/-- Guard of app.py line 52: the `ars_real` watermark is computed when the
`cpi_ar` column exists and has some present value. -/
def arsCond (f : Frame) : Bool := f.hasCpiAr && anyNotna f (·.cpi_ar)

/-- Guard of app.py lines 54-55 for the `usd_real` watermark. -/
def usdCond (f : Frame) : Bool :=
  f.hasUsd && anyNotna f (·.usd_ars) && f.hasCpiUs && anyNotna f (·.cpi_us)

/-- `df.dropna(subset=["sueldo_nominal_ars","cpi_ar"])["fecha"].max()`:
the latest present month among rows where salary and local CPI co-occur;
`none` (NaT) when no row qualifies. -/
def arsWm (f : Frame) : Option Int :=
  listMax? ((f.rows.filter (fun r => r.sueldo.notna && r.cpi_ar.notna)).filterMap (·.fecha))

/-- `df.dropna(subset=["sueldo_nominal_ars","usd_ars","cpi_us"])["fecha"].max()`. -/
def usdWm (f : Frame) : Option Int :=
  listMax? ((f.rows.filter
    (fun r => r.sueldo.notna && r.usd_ars.notna && r.cpi_us.notna)).filterMap (·.fecha))

/-- One step of Python's builtin `min` over timestamps-with-NaT: the
accumulator is replaced only when the next value compares strictly below
it, and every comparison against NaT is False.  Hence a NaT accumulator is
sticky, while a NaT candidate is skipped. -/
def pyMin2 (acc x : Option Int) : Option Int :=
  match acc, x with
  | none, _ => none
  | some a, none => some a
  | some a, some b => some (if b < a then b else a)

/-- The value of `compute_last_common_month` (app.py lines 50-59). -/
structure RangeResult where
  first : Option Int
  last_common : Option Int
  fechas : List (Option Int)
deriving DecidableEq

/-- `compute_last_common_month`: per-series watermarks guarded by column
presence, Python `min` over the dict values (insertion order: ars then
usd), defaulting to the table-wide max month when no watermark was
computed; `first` is the table-wide min month. -/
def compute_last_common_month (f : Frame) : RangeResult :=
  let ws := (if arsCond f then [arsWm f] else []) ++ (if usdCond f then [usdWm f] else [])
  { first := listMin? (f.rows.filterMap (·.fecha))
    last_common :=
      match ws with
      | [] => listMax? (f.rows.filterMap (·.fecha))
      | x :: xs => xs.foldl pyMin2 x
    fechas := ws }

/-- `deflate` (app.py lines 61-62): elementwise `series * (cpi_base / cpi)`. -/
def deflate (series cpi cpi_base : PVal) : PVal := series.mul (cpi_base.div cpi)

/-- `fecha <= base_month` on cells: a NaT month never satisfies the mask. -/
def fechaLeB (of : Option Int) (b : Int) : Bool :=
  match of with
  | some m => m ≤ b
  | none => false

/-- Base-level resolution (app.py lines 138-145): when the column exists
and has a present value, take the last present value among rows at or
before the base month (`tmp.iloc[-1]` of `dropna()`); otherwise `None`. -/
def resolveBase (flag : Bool) (get : Row → PVal) (f : Frame) (base : Int) : Option PVal :=
  if flag && anyNotna f get then
    (((f.rows.filter (fun r => fechaLeB r.fecha base)).map get).filter PVal.notna).getLast?
  else none

/-- `cpi_ar_base` of app.py lines 138-142. -/
def cpi_ar_base (f : Frame) (base : Int) : Option PVal :=
  resolveBase f.hasCpiAr (·.cpi_ar) f base

/-- `cpi_us_base` of app.py lines 139-145. -/
def cpi_us_base (f : Frame) (base : Int) : Option PVal :=
  resolveBase f.hasCpiUs (·.cpi_us) f base

/-- One row of the `out` table (app.py lines 147-158). -/
structure OutRow where
  fecha : Option Int
  sueldo_nominal_ars : PVal
  ars_real : PVal
  usd_nominal : PVal
  usd_real : PVal
deriving DecidableEq

/-- Derivation of one output row from one filtered row, given the resolved
base levels and the `usd_ars` column condition of app.py line 155:
columns initialised to NaN keep NaN when their guard fails. -/
def mkOutRow (bAr bUs : Option PVal) (usdC : Bool) (r : Row) : OutRow :=
  { fecha := r.fecha
    sueldo_nominal_ars := r.sueldo
    ars_real :=
      match bAr with
      | some b => deflate r.sueldo r.cpi_ar b
      | none => .nan
    usd_nominal := if usdC then r.sueldo.div r.usd_ars else .nan
    usd_real :=
      if usdC then
        match bUs with
        | some b => deflate (r.sueldo.div r.usd_ars) r.cpi_us b
        | none => .nan
      else .nan }

/-- The `out` table computed from the range-filtered frame `df_r` and the
chosen base month (app.py lines 138-158). -/
def computeOut (f : Frame) (base : Int) : List OutRow :=
  f.rows.map
    (mkOutRow (cpi_ar_base f base) (cpi_us_base f base)
      (f.hasUsd && anyNotna f (·.usd_ars)))

/-- `out["ars_real"].notna().any()` — whether the ARS-real series is
offered for plotting (app.py line 161). -/
def seriesArs (out : List OutRow) : Bool := out.any (fun r => r.ars_real.notna)

/-- `out["usd_real"].notna().any()` (app.py line 162). -/
def seriesUsd (out : List OutRow) : Bool := out.any (fun r => r.usd_real.notna)

/-- The date-range mask of app.py line 124 on one row (a NaT month is
excluded, since both comparisons against NaT are False). -/
def inRange (s e : Int) (r : Row) : Bool :=
  match r.fecha with
  | some m => decide (s ≤ m) && decide (m ≤ e)
  | none => false

/-- `df_r = df.loc[mask]` (app.py lines 124-125). -/
def rangeFilter (f : Frame) (s e : Int) : Frame :=
  { f with rows := f.rows.filter (inRange s e) }

/-- C7: date normalization is idempotent and truncates every parseable
date to the first day of its month (unparseable input stays missing). -/
theorem c7_normalize_idempotent :
    (∀ x : Option Date, to_month_start (to_month_start x) = to_month_start x)
    ∧ (∀ d : Date,
        to_month_start (some d) = some { year := d.year, month := d.month, day := 1 }) := by
  constructor
  · intro x
    cases x with
    | none => rfl
    | some d => rfl
  · intro d
    rfl

/-- C6: `merge_all` halts with the SchemaError if and only if the `fecha`
column or the `sueldo_nominal_ars` column is absent; with both present it
returns a table. -/
theorem c6_schema_error_iff :
    ∀ (raw : RawFrame) (ref : List (Int × ℚ)),
      (∃ e, merge_all raw ref = .error e) ↔
        (raw.hasFecha = false ∨ raw.hasSueldo = false) := by
  intro raw ref
  unfold merge_all
  by_cases h : (!raw.hasFecha || !raw.hasSueldo) = true
  · simp only [h, if_true]
    constructor
    · intro _
      rcases Bool.or_eq_true_iff.mp h with h1 | h1
      · left; simpa using h1
      · right; simpa using h1
    · intro _
      exact ⟨schemaErrMsg, rfl⟩
  · simp only [h, if_false]
    constructor
    · intro ⟨e, he⟩
      exact absurd he (by simp)
    · intro hor
      exfalso
      apply h
      rcases hor with h1 | h1
      · exact Bool.or_eq_true_iff.mpr (Or.inl (by simp [h1]))
      · exact Bool.or_eq_true_iff.mpr (Or.inr (by simp [h1]))

/-- Row 2023-01 of the spec's Scenarios A and B (month 2023-01 has index
2023*12+1 = 24277): salary 1000, fx 200, local CPI 100, foreign CPI 100. -/
def srow1 : Row :=
  { fecha := some 24277, sueldo := PVal.num 1000, usd_ars := PVal.num 200,
    cpi_ar := PVal.num 100, cpi_us := PVal.num 100 }

/-- Row 2023-02 of Scenarios A and B: salary 1100, fx 220, local CPI 110,
foreign CPI 105. -/
def srow2 : Row :=
  { fecha := some 24278, sueldo := PVal.num 1100, usd_ars := PVal.num 220,
    cpi_ar := PVal.num 110, cpi_us := PVal.num 105 }

/-- The merged table of Scenarios A and B. -/
def scenarioFrame : Frame :=
  { hasUsd := true, hasCpiAr := true, hasCpiUs := true, rows := [srow1, srow2] }

/-- The outputs the spec lists for Scenarios A and B with base 2023-02:
`ars_real = [1100, 1100]`, `usd_nominal = [5, 5]`, `usd_real = [5.25, 5]`. -/
def scenarioExpected : List OutRow :=
  [ { fecha := some 24277, sueldo_nominal_ars := PVal.num 1000,
      ars_real := PVal.num 1100, usd_nominal := PVal.num 5,
      usd_real := PVal.num (21 / 4) },
    { fecha := some 24278, sueldo_nominal_ars := PVal.num 1100,
      ars_real := PVal.num 1100, usd_nominal := PVal.num 5,
      usd_real := PVal.num 5 } ]

/-- C1: on the range-filtered table, whenever both base index levels are
resolved and the fx column condition holds, every output row carries
`real_local = nominal * (cpi_local_base / cpi_local_t)`,
`nominal_foreign = nominal / fx_t` and
`real_foreign = nominal_foreign * (cpi_foreign_base / cpi_foreign_t)`;
and the concrete inputs of Scenarios A and B produce exactly the listed
outputs (5.25 = 21/4). -/
theorem c1_derived_series_formulas :
    (∀ (f : Frame) (s e base : Int) (bA bU : PVal),
        cpi_ar_base (rangeFilter f s e) base = some bA →
        cpi_us_base (rangeFilter f s e) base = some bU →
        ((rangeFilter f s e).hasUsd && anyNotna (rangeFilter f s e) (·.usd_ars)) = true →
        computeOut (rangeFilter f s e) base =
          (rangeFilter f s e).rows.map (fun r =>
            { fecha := r.fecha
              sueldo_nominal_ars := r.sueldo
              ars_real := r.sueldo.mul (bA.div r.cpi_ar)
              usd_nominal := r.sueldo.div r.usd_ars
              usd_real := (r.sueldo.div r.usd_ars).mul (bU.div r.cpi_us) }))
    ∧ computeOut (rangeFilter scenarioFrame 24277 24278) 24278 = scenarioExpected := by
  constructor
  · intro f s e base bA bU hA hU hC
    unfold computeOut
    rw [hA, hU, hC]
    rfl
  · unfold computeOut
    rw [show cpi_ar_base (rangeFilter scenarioFrame 24277 24278) 24278
          = some (PVal.num 110) from by decide,
        show cpi_us_base (rangeFilter scenarioFrame 24277 24278) 24278
          = some (PVal.num 105) from by decide,
        show ((rangeFilter scenarioFrame 24277 24278).hasUsd
              && anyNotna (rangeFilter scenarioFrame 24277 24278) (·.usd_ars)) = true
          from by decide,
        show (rangeFilter scenarioFrame 24277 24278).rows = [srow1, srow2] from by decide]
    simp only [List.map, mkOutRow, deflate, srow1, srow2, scenarioExpected]
    norm_num [PVal.mul, PVal.div]

/-- Witness for C1 at the Scenario A/B inputs: both bases resolve (to 110
and 105) and the formulas hold there. -/
theorem c1_derived_series_formulas_witness :
    computeOut (rangeFilter scenarioFrame 24277 24278) 24278 =
      (rangeFilter scenarioFrame 24277 24278).rows.map (fun r =>
        { fecha := r.fecha
          sueldo_nominal_ars := r.sueldo
          ars_real := r.sueldo.mul ((PVal.num 110).div r.cpi_ar)
          usd_nominal := r.sueldo.div r.usd_ars
          usd_real := (r.sueldo.div r.usd_ars).mul ((PVal.num 105).div r.cpi_us) }) :=
  c1_derived_series_formulas.1 scenarioFrame 24277 24278 24278
    (PVal.num 110) (PVal.num 105) (by decide) (by decide) (by decide)

/-- A filtered table whose first row has a zero local CPI at time t
(the spec's Scenario C, with a second ordinary row). -/
def zeroCpiFrame : Frame :=
  { hasUsd := false, hasCpiAr := true, hasCpiUs := false,
    rows := [
      { fecha := some 24277, sueldo := PVal.num 1000, usd_ars := PVal.nan,
        cpi_ar := PVal.num 0, cpi_us := PVal.nan },
      { fecha := some 24278, sueldo := PVal.num 1100, usd_ars := PVal.nan,
        cpi_ar := PVal.num 110, cpi_us := PVal.nan } ] }

/-- C2 is FALSE on the code for the zero-index case: with base level 110,
the row whose `cpi_ar` is 0 gets `1000 * (110 / 0) = +infinity`, which is
a present (non-missing) value under `notna` — not "missing" as the claim
states.  (No exception is raised; numpy turns the division into inf.) -/
theorem c2_counterexample :
    (computeOut zeroCpiFrame 24278).map (fun r => r.ars_real)
      = [PVal.inf, PVal.num 1100]
    ∧ PVal.inf.notna = true := by
  constructor
  · unfold computeOut
    rw [show cpi_ar_base zeroCpiFrame 24278 = some (PVal.num 110) from by decide,
        show cpi_us_base zeroCpiFrame 24278 = none from by decide,
        show (zeroCpiFrame.hasUsd && anyNotna zeroCpiFrame (·.usd_ars)) = false from by decide]
    simp only [zeroCpiFrame, List.map, mkOutRow, deflate]
    norm_num [PVal.mul, PVal.div]
  · rfl

/-- C2 amended: a missing price index at time t propagates to a missing
deflated value (and no error), but a ZERO price index with nonzero base
and nonzero nominal yields a present infinite value, not a missing one;
the computation is total either way (never a division exception). -/
theorem c2_zero_or_missing_index (bUs : Option PVal) (usdC : Bool) (r : Row) (b s : ℚ) :
    (r.cpi_ar = PVal.nan → ∀ bAr, (mkOutRow bAr bUs usdC r).ars_real = PVal.nan)
    ∧ (r.cpi_ar = PVal.num 0 → r.sueldo = PVal.num s → s ≠ 0 → b ≠ 0 →
        ((mkOutRow (some (PVal.num b)) bUs usdC r).ars_real).notna = true) := by
  constructor
  · intro h bAr
    cases bAr with
    | none => rfl
    | some b' =>
      show deflate r.sueldo r.cpi_ar b' = PVal.nan
      rw [h]
      unfold deflate
      cases b' <;> cases r.sueldo <;> rfl
  · intro h hsal hsne hbne
    show (deflate r.sueldo r.cpi_ar (PVal.num b)).notna = true
    rw [h, hsal]
    unfold deflate
    simp only [PVal.div]
    rw [if_pos trivial, if_neg hbne]
    rcases lt_or_gt_of_ne hbne with hb | hb
    · rw [if_neg (not_lt.mpr hb.le)]
      simp only [PVal.mul]
      rcases lt_or_gt_of_ne hsne with hs' | hs'
      · rw [if_neg (not_lt.mpr hs'.le), if_pos hs']; rfl
      · rw [if_pos hs']; rfl
    · rw [if_pos hb]
      simp only [PVal.mul]
      rcases lt_or_gt_of_ne hsne with hs' | hs'
      · rw [if_neg (not_lt.mpr hs'.le), if_pos hs']; rfl
      · rw [if_pos hs']; rfl

/-- The Scenario C row with zero local CPI. -/
def zeroRow : Row :=
  { fecha := some 24277, sueldo := PVal.num 1000, usd_ars := PVal.nan,
    cpi_ar := PVal.num 0, cpi_us := PVal.nan }

/-- Witness for C2 (amended) at the Scenario C row: base 110, salary 1000,
zero index — the output value is present (infinite), not missing. -/
theorem c2_zero_or_missing_index_witness :
    zeroRow.cpi_ar = PVal.num 0 ∧ zeroRow.sueldo = PVal.num 1000
    ∧ (1000 : ℚ) ≠ 0 ∧ (110 : ℚ) ≠ 0
    ∧ ((mkOutRow (some (PVal.num 110)) none false zeroRow).ars_real).notna = true :=
  ⟨rfl, rfl, by norm_num, by norm_num,
    (c2_zero_or_missing_index none false zeroRow 110 1000).2 rfl rfl
      (by norm_num) (by norm_num)⟩

/-- A merged table where the `ars_real` watermark guard fires (the
`cpi_ar` column has present values) but salary and `cpi_ar` never co-occur,
while the `usd_real` series is fully derivable at month 24278. -/
def stickyFrame : Frame :=
  { hasUsd := true, hasCpiAr := true, hasCpiUs := true,
    rows := [
      { fecha := some 24277, sueldo := PVal.nan, usd_ars := PVal.num 200,
        cpi_ar := PVal.num 100, cpi_us := PVal.num 100 },
      { fecha := some 24278, sueldo := PVal.num 1000, usd_ars := PVal.num 200,
        cpi_ar := PVal.nan, cpi_us := PVal.num 100 } ] }

/-- C3 is FALSE on the code as stated: `stickyFrame` has a derivable
series (foreign-real, watermark month 24278), yet the reported last common
month is NaT (`none`), not the minimum over the existing watermarks
(`some 24278`).  Cause: the `ars_real` guard fires on column presence
alone, its `dropna(...).max()` is NaT on the empty co-occurrence set, and
Python's `min` keeps a NaT accumulator (every comparison with NaT is
False), so the NaT first watermark is sticky. -/
theorem c3_counterexample :
    arsCond stickyFrame = true ∧ usdCond stickyFrame = true
    ∧ arsWm stickyFrame = none ∧ usdWm stickyFrame = some 24278
    ∧ (compute_last_common_month stickyFrame).last_common = none := by
  refine ⟨by decide, by decide, by decide, by decide, by decide⟩

/-- C3 amended: the reported start is always the minimum present month;
with no computed watermark the end defaults to the table-wide maximum
month; when every computed watermark has a co-occurring month the end is
the minimum over the computed watermarks; but a computed local-real
watermark with empty co-occurrence set makes the reported end missing
(NaT), while an empty foreign-real watermark is ignored when the
local-real one exists (Python min over dict insertion order). -/
theorem c3_range_resolution (f : Frame) :
    (compute_last_common_month f).first = listMin? (f.rows.filterMap (·.fecha))
    ∧ (arsCond f = false → usdCond f = false →
        (compute_last_common_month f).last_common = listMax? (f.rows.filterMap (·.fecha)))
    ∧ (arsCond f = true → arsWm f = none →
        (compute_last_common_month f).last_common = none)
    ∧ (∀ a : Int, arsCond f = true → arsWm f = some a → usdCond f = false →
        (compute_last_common_month f).last_common = some a)
    ∧ (∀ a : Int, arsCond f = true → arsWm f = some a → usdCond f = true → usdWm f = none →
        (compute_last_common_month f).last_common = some a)
    ∧ (∀ a u : Int, arsCond f = true → arsWm f = some a → usdCond f = true → usdWm f = some u →
        (compute_last_common_month f).last_common = some (min a u))
    ∧ (arsCond f = false → usdCond f = true →
        (compute_last_common_month f).last_common = usdWm f) := by
  refine ⟨rfl, ?_, ?_, ?_, ?_, ?_, ?_⟩
  · intro h1 h2
    simp [compute_last_common_month, h1, h2]
  · intro h1 h2
    simp [compute_last_common_month, h1, h2, pyMin2]
    cases hu : usdCond f <;> simp [pyMin2]
  · intro a h1 h2 h3
    simp [compute_last_common_month, h1, h2, h3, pyMin2]
  · intro a h1 h2 h3 h4
    simp [compute_last_common_month, h1, h2, h3, h4, pyMin2]
  · intro a u h1 h2 h3 h4
    simp only [compute_last_common_month, h1, h2, h3, h4, if_true]
    by_cases hlt : u < a
    · simp [pyMin2, hlt, min_eq_right hlt.le]
    · simp [pyMin2, hlt, min_eq_left (not_lt.mp hlt)]
  · intro h1 h2
    simp [compute_last_common_month, h1, h2, pyMin2]

/-- Witness for C3 (amended) at the Scenario A/B table, where both
watermarks exist and equal 24278. -/
theorem c3_range_resolution_witness :
    arsCond scenarioFrame = true ∧ arsWm scenarioFrame = some 24278
    ∧ usdCond scenarioFrame = true ∧ usdWm scenarioFrame = some 24278
    ∧ (compute_last_common_month scenarioFrame).last_common = some (min 24278 24278) :=
  ⟨by decide, by decide, by decide, by decide,
    (c3_range_resolution scenarioFrame).2.2.2.2.2.1 24278 24278
      (by decide) (by decide) (by decide) (by decide)⟩

/-- An input table with two rows in the SAME calendar month (2023-01-05
and 2023-01-20) — a legal upload, since the contract only demands
parseable dates. -/
def rawDup : RawFrame :=
  { hasFecha := true, hasSueldo := true, hasUsd := false, hasCpiAr := false,
    hasCpiUs := true,
    rows := [
      { fecha := some { year := 2023, month := 1, day := 5 }, sueldo := PVal.num 1000,
        usd_ars := PVal.nan, cpi_ar := PVal.nan, cpi_us := PVal.nan },
      { fecha := some { year := 2023, month := 1, day := 20 }, sueldo := PVal.num 1100,
        usd_ars := PVal.nan, cpi_ar := PVal.nan, cpi_us := PVal.nan } ] }

/-- What `merge_all` produces from `rawDup`: both rows normalised to month
24277, neither dropped nor merged. -/
def dupFrame : Frame :=
  { hasUsd := false, hasCpiAr := false, hasCpiUs := true,
    rows := [
      { fecha := some 24277, sueldo := PVal.num 1000, usd_ars := PVal.nan,
        cpi_ar := PVal.nan, cpi_us := PVal.nan },
      { fecha := some 24277, sueldo := PVal.num 1100, usd_ars := PVal.nan,
        cpi_ar := PVal.nan, cpi_us := PVal.nan } ] }

/-- C9 is FALSE on the code in its uniqueness half: `merge_all` sorts but
never deduplicates, so two input rows that normalise to the same month
survive as duplicate month values in the output table. -/
theorem c9_counterexample :
    merge_all rawDup [] = Except.ok dupFrame ∧ ¬ monthsUnique dupFrame := by
  constructor
  · rfl
  · decide

/-- C9 amended: after `merge_all` the rows are sorted ascending by month
(missing months last); month uniqueness is NOT guaranteed — duplicate
months are retained. -/
theorem c9_merge_sorted :
    ∀ (raw : RawFrame) (ref : List (Int × ℚ)) (F : Frame),
      merge_all raw ref = Except.ok F → frameSorted F := by
  intro raw ref F h
  unfold merge_all at h
  by_cases hg : (!raw.hasFecha || !raw.hasSueldo) = true
  · rw [if_pos hg] at h
    exact absurd h (by simp)
  · rw [if_neg hg] at h
    have hF : F.rows = mergedRows raw ref := by
      injection h with h'
      rw [← h']
    show List.Sorted rowLe F.rows
    rw [hF]
    unfold mergedRows
    by_cases hc : raw.hasCpiUs = true
    · simp only [hc, if_true]
      exact List.sorted_insertionSort rowLe _
    · simp only [hc, if_false]
      exact List.Pairwise.map _ (fun a b hab => hab)
        (List.sorted_insertionSort rowLe _)

/-- Witness for C9 (amended): the duplicate-month table is still sorted. -/
theorem c9_merge_sorted_witness : frameSorted dupFrame :=
  c9_merge_sorted rawDup [] dupFrame rfl

/-- When the caller supplied `cpi_us`, the reference table plays no role in
the merge at all. -/
lemma merge_ref_irrelevant (raw : RawFrame) (ref ref' : List (Int × ℚ))
    (h : raw.hasCpiUs = true) : merge_all raw ref = merge_all raw ref' := by
  unfold merge_all mergedRows
  simp only [h, if_true]

/-- With a caller-supplied `cpi_us` column, merged rows are just the sorted
normalised rows. -/
lemma mergedRows_of_hasCpiUs (raw : RawFrame) (ref : List (Int × ℚ))
    (h : raw.hasCpiUs = true) :
    mergedRows raw ref = List.insertionSort rowLe (raw.rows.map (normRow raw)) := by
  unfold mergedRows
  simp only [h, if_true]

/-- Extract the row list from a successful merge. -/
lemma merge_ok_rows (raw : RawFrame) (ref : List (Int × ℚ)) (F : Frame)
    (h : merge_all raw ref = Except.ok F) : F.rows = mergedRows raw ref := by
  unfold merge_all at h
  by_cases hg : (!raw.hasFecha || !raw.hasSueldo) = true
  · rw [if_pos hg] at h
    exact absurd h (by simp)
  · rw [if_neg hg] at h
    injection h with h'
    rw [← h']

/-- C5: with a caller-supplied `cpi_foreign` column the reference index is
never consulted (the merge result does not depend on it) and the column's
values survive the merge unchanged (as a permutation, since rows are
sorted); with the column absent, every merged row's `cpi_foreign` is the
reference lookup of its month, and months with no reference match get a
missing value. -/
theorem c5_merge_never_overwrites (raw : RawFrame) (ref ref' : List (Int × ℚ)) :
    (raw.hasCpiUs = true →
        merge_all raw ref = merge_all raw ref'
        ∧ ∀ F, merge_all raw ref = Except.ok F →
            List.Perm (F.rows.map (·.cpi_us)) (raw.rows.map (·.cpi_us)))
    ∧ (raw.hasCpiUs = false →
        ∀ F, merge_all raw ref = Except.ok F → ∀ r, r ∈ F.rows →
          r.cpi_us = (match r.fecha with
                      | some m => lookupRef ref m
                      | none => PVal.nan))
    ∧ (∀ m : Int, ref.find? (fun p => p.1 == m) = none → lookupRef ref m = PVal.nan) := by
  refine ⟨?_, ?_, ?_⟩
  · intro h
    refine ⟨merge_ref_irrelevant raw ref ref' h, ?_⟩
    intro F hF
    rw [merge_ok_rows raw ref F hF, mergedRows_of_hasCpiUs raw ref h]
    have hperm := (List.perm_insertionSort rowLe (raw.rows.map (normRow raw))).map
      (fun r : Row => r.cpi_us)
    refine hperm.trans ?_
    rw [List.map_map]
    have hcong : ∀ a ∈ raw.rows,
        ((fun r : Row => r.cpi_us) ∘ normRow raw) a = a.cpi_us := by
      intro a _
      simp [normRow, h]
    rw [List.map_congr_left hcong]
  · intro h F hF r hr
    rw [merge_ok_rows raw ref F hF] at hr
    unfold mergedRows at hr
    simp only [h, if_false] at hr
    rcases List.mem_map.mp hr with ⟨r0, _, rfl⟩
    rfl
  · intro m h
    unfold lookupRef
    rw [h]

/-- Witness for C5 at the duplicate-month table (which has a caller
`cpi_us` column): the merge is identical under two different references. -/
theorem c5_merge_never_overwrites_witness :
    rawDup.hasCpiUs = true
    ∧ merge_all rawDup [] = merge_all rawDup [(24277, (100 : ℚ))] :=
  ⟨rfl, ((c5_merge_never_overwrites rawDup [] [(24277, (100 : ℚ))]).1 rfl).1⟩

/-- If no local-CPI base level resolves, every output `ars_real` is NaN. -/
lemma outArs_nan_of_base_none (f : Frame) (base : Int)
    (h : cpi_ar_base f base = none) :
    ∀ o ∈ computeOut f base, o.ars_real = PVal.nan := by
  intro o ho
  unfold computeOut at ho
  rcases List.mem_map.mp ho with ⟨r, _, rfl⟩
  simp [mkOutRow, h]

/-- If no foreign-CPI base level resolves, every output `usd_real` is NaN
(whatever the fx-column condition). -/
lemma outUsd_nan_of_base_none (f : Frame) (base : Int)
    (h : cpi_us_base f base = none) :
    ∀ o ∈ computeOut f base, o.usd_real = PVal.nan := by
  intro o ho
  unfold computeOut at ho
  rcases List.mem_map.mp ho with ⟨r, _, rfl⟩
  cases hc : (f.hasUsd && anyNotna f (·.usd_ars)) <;> simp [mkOutRow, h, hc]

/-- An unresolved local base level keeps the ARS-real series out of the
plotted series list. -/
lemma seriesArs_of_base_none (f : Frame) (base : Int)
    (h : cpi_ar_base f base = none) : seriesArs (computeOut f base) = false := by
  apply List.any_eq_false.mpr
  intro o ho
  rw [outArs_nan_of_base_none f base h o ho]
  simp [PVal.notna]

/-- An unresolved foreign base level keeps the USD-real series out of the
plotted series list. -/
lemma seriesUsd_of_base_none (f : Frame) (base : Int)
    (h : cpi_us_base f base = none) : seriesUsd (computeOut f base) = false := by
  apply List.any_eq_false.mpr
  intro o ho
  rw [outUsd_nan_of_base_none f base h o ho]
  simp [PVal.notna]

/-- C10 (implicit behavior): the decision to join the reference index
looks only at the NAME `cpi_us` being present, never at its contents.  An
input whose `cpi_us` column exists but is entirely missing is merged
without consulting the reference (the result is independent of it), keeps
an all-missing `cpi_us`, never computes a foreign-real watermark, never
resolves a foreign base level on any window, and never plots the
foreign-real series — even though the reference data was available. -/
theorem c10_all_nan_cpius_blocks_join (raw : RawFrame) (ref ref' : List (Int × ℚ))
    (hcol : raw.hasCpiUs = true)
    (hnan : ∀ r, r ∈ raw.rows → r.cpi_us = PVal.nan) :
    merge_all raw ref = merge_all raw ref'
    ∧ ∀ F, merge_all raw ref = Except.ok F →
        (∀ r, r ∈ F.rows → r.cpi_us = PVal.nan)
        ∧ usdCond F = false
        ∧ ∀ s e base,
            cpi_us_base (rangeFilter F s e) base = none
            ∧ seriesUsd (computeOut (rangeFilter F s e) base) = false := by
  refine ⟨merge_ref_irrelevant raw ref ref' hcol, ?_⟩
  intro F hF
  have hrows : ∀ r, r ∈ F.rows → r.cpi_us = PVal.nan := by
    intro r hr
    rw [merge_ok_rows raw ref F hF, mergedRows_of_hasCpiUs raw ref hcol] at hr
    rw [List.mem_insertionSort] at hr
    rcases List.mem_map.mp hr with ⟨r0, hr0, rfl⟩
    show (if raw.hasCpiUs then r0.cpi_us else PVal.nan) = PVal.nan
    rw [hcol, if_pos rfl]
    exact hnan r0 hr0
  refine ⟨hrows, ?_, ?_⟩
  · have hany : anyNotna F (·.cpi_us) = false := by
      apply List.any_eq_false.mpr
      intro r hr
      show ¬(r.cpi_us).notna = true
      rw [hrows r hr]
      simp [PVal.notna]
    unfold usdCond
    rw [hany, Bool.and_false]
  · intro s e base
    have hany' : anyNotna (rangeFilter F s e) (·.cpi_us) = false := by
      apply List.any_eq_false.mpr
      intro r hr
      have hrF : r ∈ F.rows := List.mem_of_mem_filter hr
      show ¬(r.cpi_us).notna = true
      rw [hrows r hrF]
      simp [PVal.notna]
    have hbase : cpi_us_base (rangeFilter F s e) base = none := by
      unfold cpi_us_base resolveBase
      rw [hany', Bool.and_false]
      rfl
    exact ⟨hbase, seriesUsd_of_base_none _ _ hbase⟩

/-- Witness for C10 at the duplicate-month table (caller `cpi_us` present
but all missing) with a nonempty reference that even matches month 24277. -/
theorem c10_all_nan_cpius_blocks_join_witness :
    rawDup.hasCpiUs = true
    ∧ usdCond dupFrame = false
    ∧ seriesUsd (computeOut (rangeFilter dupFrame 24277 24278) 24278) = false :=
  ⟨rfl,
    (((c10_all_nan_cpius_blocks_join rawDup [(24277, (100 : ℚ))] [] rfl
        (by decide)).2 dupFrame rfl).2).1,
    ((((c10_all_nan_cpius_blocks_join rawDup [(24277, (100 : ℚ))] [] rfl
        (by decide)).2 dupFrame rfl).2).2 24277 24278 24278).2⟩

/-- The claim's candidate rows for base resolution: rows at or before the
base month whose relevant CPI cell is present. -/
def baseCands (get : Row → PVal) (f : Frame) (base : Int) : List Row :=
  f.rows.filter (fun r => fechaLeB r.fecha base && (get r).notna)

lemma fecLe_refl (o : Option Int) : fecLe o o = true := by
  cases o <;> simp [fecLe]

/-- In a sorted row list, the last element bounds every element by month. -/
lemma pairwise_getLast_max (l : List Row) (hp : List.Pairwise rowLe l) (r : Row)
    (hr : l.getLast? = some r) : ∀ q ∈ l, fecLe q.fecha r.fecha = true := by
  rcases List.getLast?_eq_some_iff.mp hr with ⟨ys, rfl⟩
  intro q hq
  rcases List.mem_append.mp hq with h | h
  · exact (List.pairwise_append.mp hp).2.2 q h r (List.mem_singleton.mpr rfl)
  · rw [List.mem_singleton.mp h]
    exact fecLe_refl _

/-- The mask-then-project-then-dropna pipeline of app.py lines 141/144
equals projecting the claim's candidate rows. -/
lemma resolveBase_filter_comm (get : Row → PVal) (f : Frame) (base : Int) :
    ((f.rows.filter (fun r => fechaLeB r.fecha base)).map get).filter PVal.notna
      = (baseCands get f base).map get := by
  rw [List.filter_map, List.filter_filter]
  unfold baseCands
  congr 1
  apply List.filter_congr
  intro a _
  exact Bool.and_comm _ _

/-- C4: on a sorted window, the base index level for a series is the CPI
value of the chronologically latest candidate row (month at or before the
base month, CPI present); with no candidate the base is `None`, every
deflated value of that series is missing, and the series is omitted from
the chart series list — no error in either case (the functions are total). -/
theorem c4_base_lookup :
    (∀ (flag : Bool) (get : Row → PVal) (f : Frame) (base : Int),
        frameSorted f →
        (flag = false → ∀ r ∈ f.rows, get r = PVal.nan) →
        (baseCands get f base = [] → resolveBase flag get f base = none)
        ∧ (∀ r, (baseCands get f base).getLast? = some r →
            resolveBase flag get f base = some (get r)
            ∧ r ∈ baseCands get f base
            ∧ ∀ q ∈ baseCands get f base, fecLe q.fecha r.fecha = true))
    ∧ (∀ (f : Frame) (base : Int),
        (cpi_ar_base f base = none →
          (∀ o ∈ computeOut f base, o.ars_real = PVal.nan)
          ∧ seriesArs (computeOut f base) = false)
        ∧ (cpi_us_base f base = none →
          (∀ o ∈ computeOut f base, o.usd_real = PVal.nan)
          ∧ seriesUsd (computeOut f base) = false)) := by
  constructor
  · intro flag get f base hs hflag
    constructor
    · intro hnil
      unfold resolveBase
      by_cases hg : (flag && anyNotna f get) = true
      · rw [if_pos hg, resolveBase_filter_comm, hnil]
        rfl
      · rw [if_neg hg]
    · intro r hr
      have hmem : r ∈ baseCands get f base := List.mem_of_getLast?_eq_some hr
      have hrf : r ∈ f.rows := List.mem_of_mem_filter hmem
      have hpred : fechaLeB r.fecha base = true ∧ (get r).notna = true := by
        simpa using (List.mem_filter.mp hmem).2
      have hn : (get r).notna = true := hpred.2
      have hfl : flag = true := by
        cases hflc : flag
        · rw [hflag hflc r hrf] at hn
          exact absurd hn (by simp [PVal.notna])
        · rfl
      have hany : anyNotna f get = true := by
        unfold anyNotna
        apply List.any_eq_true.mpr
        exact ⟨r, hrf, hn⟩
      have hg : (flag && anyNotna f get) = true := by
        rw [hfl, hany]
        rfl
      have hp : List.Pairwise rowLe f.rows := hs
      refine ⟨?_, hmem, ?_⟩
      · unfold resolveBase
        rw [if_pos hg, resolveBase_filter_comm, List.getLast?_map, hr]
        rfl
      · exact pairwise_getLast_max _ (List.Pairwise.filter _ hp) r hr
  · intro f base
    exact ⟨fun h => ⟨outArs_nan_of_base_none f base h, seriesArs_of_base_none f base h⟩,
           fun h => ⟨outUsd_nan_of_base_none f base h, seriesUsd_of_base_none f base h⟩⟩

/-- Witness for C4 at the Scenario A/B window: the local base resolves to
the CPI of the latest candidate row (110 at month 24278). -/
theorem c4_base_lookup_witness :
    frameSorted scenarioFrame
    ∧ resolveBase true (fun r => r.cpi_ar) scenarioFrame 24278 = some (PVal.num 110) := by
  have hs : frameSorted scenarioFrame := by
    unfold frameSorted
    decide
  refine ⟨hs, ?_⟩
  have h := (c4_base_lookup.1 true (fun r => r.cpi_ar) scenarioFrame 24278 hs
      (fun hff => absurd hff (by decide))).2 srow2 (by decide)
  exact h.1

/-- "Sparser cell": either unchanged or degraded to missing. -/
def cellSparser (a b : PVal) : Prop := a = b ∨ a = PVal.nan

/-- "Sparser row": same month, each numeric field unchanged or missing. -/
def rowSparser (a b : Row) : Prop :=
  a.fecha = b.fecha ∧ cellSparser a.sueldo b.sueldo ∧ cellSparser a.usd_ars b.usd_ars
    ∧ cellSparser a.cpi_ar b.cpi_ar ∧ cellSparser a.cpi_us b.cpi_us

/-- "Sparser table": same columns, rows pointwise sparser. -/
def frameSparser (g f : Frame) : Prop :=
  g.hasUsd = f.hasUsd ∧ g.hasCpiAr = f.hasCpiAr ∧ g.hasCpiUs = f.hasCpiUs
    ∧ List.Forall₂ rowSparser g.rows f.rows

/-- Order on watermarks with "missing" as bottom: a missing watermark
counts as no later than anything. -/
def wmLe : Option Int → Option Int → Prop
  | none, _ => True
  | some _, none => False
  | some a, some b => a ≤ b

lemma cellSparser_notna {a b : PVal} (h : cellSparser a b) (ha : a.notna = true) :
    b.notna = true := by
  rcases h with rfl | h2
  · exact ha
  · rw [h2] at ha
    exact absurd ha (by simp [PVal.notna])

lemma forall₂_mem_left {α β : Type} {R : α → β → Prop} :
    ∀ {l : List α} {l' : List β}, List.Forall₂ R l l' → ∀ a ∈ l, ∃ b ∈ l', R a b := by
  intro l l' h
  induction h with
  | nil => intro a ha; exact absurd ha (List.not_mem_nil a)
  | cons hr _ ih =>
    intro a ha
    rcases List.mem_cons.mp ha with rfl | ha2
    · exact ⟨_, List.mem_cons_self _ _, hr⟩
    · rcases ih a ha2 with ⟨b, hb, hab⟩
      exact ⟨b, List.mem_cons_of_mem _ hb, hab⟩

lemma foldl_max_spec : ∀ (xs : List Int) (x : Int),
    xs.foldl max x ∈ x :: xs ∧ x ≤ xs.foldl max x ∧ ∀ y ∈ xs, y ≤ xs.foldl max x := by
  intro xs
  induction xs with
  | nil =>
    intro x
    refine ⟨List.mem_cons_self x [], le_refl x, ?_⟩
    intro y hy
    exact absurd hy (List.not_mem_nil y)
  | cons z zs ih =>
    intro x
    obtain ⟨hmem, hle, hall⟩ := ih (max x z)
    have hfold : (z :: zs).foldl max x = zs.foldl max (max x z) := rfl
    refine ⟨?_, ?_, ?_⟩
    · rw [hfold]
      rcases List.mem_cons.mp hmem with h | h
      · rcases max_choice x z with h2 | h2
        · rw [h, h2]
          exact List.mem_cons_self x (z :: zs)
        · rw [h, h2]
          exact List.mem_cons_of_mem x (List.mem_cons_self z zs)
      · exact List.mem_cons_of_mem x (List.mem_cons_of_mem z h)
    · rw [hfold]
      exact le_trans (le_max_left x z) hle
    · intro y hy
      rw [hfold]
      rcases List.mem_cons.mp hy with rfl | h
      · exact le_trans (le_max_right x y) hle
      · exact hall y h

lemma listMax?_spec {l : List Int} {m : Int} (h : listMax? l = some m) :
    m ∈ l ∧ ∀ x ∈ l, x ≤ m := by
  cases l with
  | nil => exact absurd h (by simp [listMax?])
  | cons x xs =>
    have hm : xs.foldl max x = m := by
      have h2 : some (xs.foldl max x) = some m := h
      exact Option.some.inj h2
    obtain ⟨hmem, hle, hall⟩ := foldl_max_spec xs x
    subst hm
    refine ⟨hmem, ?_⟩
    intro y hy
    rcases List.mem_cons.mp hy with rfl | h2
    · exact hle
    · exact hall y h2

/-- Shrinking the candidate set can only keep or lower `listMax?` (with a
missing maximum below everything). -/
lemma listMax?_mono {l' l : List Int} (h : ∀ x ∈ l', x ∈ l) :
    wmLe (listMax? l') (listMax? l) := by
  cases hl' : listMax? l' with
  | none => trivial
  | some m' =>
    obtain ⟨hm, _⟩ := listMax?_spec hl'
    have hml : m' ∈ l := h m' hm
    cases hl : listMax? l with
    | none =>
      cases l with
      | nil => exact absurd hml (List.not_mem_nil m')
      | cons a as => exact absurd hl (by simp [listMax?])
    | some M =>
      obtain ⟨_, hall⟩ := listMax?_spec hl
      exact hall m' hml

/-- Every candidate month of the sparser table is a candidate month of the
original, for any required-field predicate that only looks at presence. -/
lemma sparser_cand_mem {g f : List Row} (h : List.Forall₂ rowSparser g f)
    (p : Row → Bool) (hp : ∀ a b, rowSparser a b → p a = true → p b = true) :
    ∀ m ∈ (g.filter p).filterMap (·.fecha), m ∈ (f.filter p).filterMap (·.fecha) := by
  intro m hm
  rcases List.mem_filterMap.mp hm with ⟨a, ha, hfa⟩
  rcases List.mem_filter.mp ha with ⟨hal, hap⟩
  rcases forall₂_mem_left h a hal with ⟨b, hbl, hab⟩
  refine List.mem_filterMap.mpr ⟨b, List.mem_filter.mpr ⟨hbl, hp a b hab hap⟩, ?_⟩
  rw [← hab.1]
  exact hfa

lemma anyNotna_sparser {g f : Frame} (hrows : List.Forall₂ rowSparser g.rows f.rows)
    (get : Row → PVal) (hget : ∀ a b, rowSparser a b → cellSparser (get a) (get b)) :
    anyNotna g get = true → anyNotna f get = true := by
  intro h
  rcases List.any_eq_true.mp h with ⟨a, ha, hn⟩
  rcases forall₂_mem_left hrows a ha with ⟨b, hb, hab⟩
  exact List.any_eq_true.mpr ⟨b, hb, cellSparser_notna (hget a b hab) hn⟩

/-- C8: making any required field sparser (same months, some present
values degraded to missing) can never raise a per-series watermark, and it
can only switch watermark guards off, never on. -/
theorem c8_watermark_monotone (g f : Frame) (h : frameSparser g f) :
    wmLe (arsWm g) (arsWm f) ∧ wmLe (usdWm g) (usdWm f)
    ∧ (arsCond g = true → arsCond f = true)
    ∧ (usdCond g = true → usdCond f = true) := by
  obtain ⟨hU, hA, hC, hrows⟩ := h
  refine ⟨?_, ?_, ?_, ?_⟩
  · apply listMax?_mono
    apply sparser_cand_mem hrows
    intro a b hab hpa
    have hpa' : a.sueldo.notna = true ∧ a.cpi_ar.notna = true := by simpa using hpa
    have h1 := cellSparser_notna hab.2.1 hpa'.1
    have h2 := cellSparser_notna hab.2.2.2.1 hpa'.2
    simp [h1, h2]
  · apply listMax?_mono
    apply sparser_cand_mem hrows
    intro a b hab hpa
    have hpa' : (a.sueldo.notna = true ∧ a.usd_ars.notna = true)
        ∧ a.cpi_us.notna = true := by simpa using hpa
    have h1 := cellSparser_notna hab.2.1 hpa'.1.1
    have h2 := cellSparser_notna hab.2.2.1 hpa'.1.2
    have h3 := cellSparser_notna hab.2.2.2.2 hpa'.2
    simp [h1, h2, h3]
  · intro hg
    have hg' : g.hasCpiAr = true ∧ anyNotna g (·.cpi_ar) = true := by
      simpa [arsCond] using hg
    have hb := anyNotna_sparser hrows (fun r => r.cpi_ar) (fun a b hab => hab.2.2.2.1) hg'.2
    simp [arsCond, ← hA, hg'.1, hb]
  · intro hg
    have hg' : ((g.hasUsd = true ∧ anyNotna g (·.usd_ars) = true)
        ∧ g.hasCpiUs = true) ∧ anyNotna g (·.cpi_us) = true := by
      simpa [usdCond] using hg
    have hb1 := anyNotna_sparser hrows (fun r => r.usd_ars) (fun a b hab => hab.2.2.1) hg'.1.1.2
    have hb2 := anyNotna_sparser hrows (fun r => r.cpi_us) (fun a b hab => hab.2.2.2.2) hg'.2
    simp [usdCond, ← hU, ← hC, hg'.1.1.1, hg'.1.2, hb1, hb2]

/-- The Scenario A/B table with the first row's local CPI degraded to
missing. -/
def sparseFrame : Frame :=
  { hasUsd := true, hasCpiAr := true, hasCpiUs := true,
    rows := [
      { fecha := some 24277, sueldo := PVal.num 1000, usd_ars := PVal.num 200,
        cpi_ar := PVal.nan, cpi_us := PVal.num 100 },
      srow2 ] }

lemma sparseFrame_sparser : frameSparser sparseFrame scenarioFrame := by
  refine ⟨rfl, rfl, rfl, ?_⟩
  refine List.Forall₂.cons ?_ (List.Forall₂.cons ?_ List.Forall₂.nil)
  · exact ⟨rfl, Or.inl rfl, Or.inl rfl, Or.inr rfl, Or.inl rfl⟩
  · exact ⟨rfl, Or.inl rfl, Or.inl rfl, Or.inl rfl, Or.inl rfl⟩

/-- Witness for C8: degrading one CPI cell of the Scenario A/B table is a
sparsification, and the watermark conclusions hold there. -/
theorem c8_watermark_monotone_witness :
    frameSparser sparseFrame scenarioFrame
    ∧ (wmLe (arsWm sparseFrame) (arsWm scenarioFrame)
       ∧ wmLe (usdWm sparseFrame) (usdWm scenarioFrame)
       ∧ (arsCond sparseFrame = true → arsCond scenarioFrame = true)
       ∧ (usdCond sparseFrame = true → usdCond scenarioFrame = true)) :=
  ⟨sparseFrame_sparser, c8_watermark_monotone sparseFrame scenarioFrame sparseFrame_sparser⟩

/-- An upload missing the `fecha` column. -/
def rawNoFecha : RawFrame :=
  { hasFecha := false, hasSueldo := true, hasUsd := false, hasCpiAr := false,
    hasCpiUs := false, rows := [] }

/-- Witness for C6: the error case is reachable (missing `fecha` halts)
and the success case is reachable (both columns present does not halt). -/
theorem c6_schema_error_iff_witness :
    (∃ e, merge_all rawNoFecha [] = Except.error e)
    ∧ ¬ ∃ e, merge_all rawDup [] = Except.error e :=
  ⟨(c6_schema_error_iff rawNoFecha []).mpr (Or.inl rfl),
    fun h => by
      have h2 := (c6_schema_error_iff rawDup []).mp h
      rcases h2 with h3 | h3 <;> exact absurd h3 (by decide)⟩
